import Mathlib

/-
Verification of `src/hooks/lib/ios/xcodePreferences.js` from
cordova-universal-links-plugin.

The file is shallowly embedded below.  JavaScript objects holding build
settings are modelled as association lists with unique keys (`List (String ×
String)`); the `XCBuildConfiguration` section of the pbxproj file is a list of
`(key, record)` pairs in object-iteration order.  The external dependency
`node-version-compare` is not part of the repository, so it is modelled from
the specification's description of it (numeric per-dot-segment comparison).
File-system effects of the hook entry point are modelled with an explicit
`FileSystem` record and an outcome type.
-/

namespace XcodePreferences

/-- Suffix test on strings, used to model the regex tests `/_comment$/`
(on section keys) and `/\.xcodeproj$/` (on directory entries) from the
source. -/
def endsWithStr (s post : String) : Bool :=
  s.takeRight post.length == post

/-- Splits a character list on the dot character; `splitSegs "8.10".data =
[['8'], ['1','0']]`.  Helper for the modelled version comparator. -/
def splitSegs : List Char → List (List Char)
  | [] => [[]]
  | c :: cs =>
    match splitSegs cs, decide (c = '.') with
    | rest, true => [] :: rest
    | [], false => [[c]]
    | r :: rs, false => (c :: r) :: rs

/-- Reads a digit segment as a natural number (decimal), the way
`parseInt(seg, 10)` reads an all-digit segment. -/
def segToNat (s : List Char) : Nat :=
  s.foldl (fun acc c => acc * 10 + (c.toNat - '0'.toNat)) 0

/-- Dot-separated numeric segments of a version string. -/
def parseSegs (s : String) : List Nat :=
  (splitSegs s.data).map segToNat

/-- Compares two segment lists numerically, segment by segment; when one
list is a proper prefix of the other, the shorter is smaller.  Returns
-1, 0 or 1. -/
def compareSegs : List Nat → List Nat → Int
  | [], [] => 0
  | [], _ :: _ => -1
  | _ :: _, [] => 1
  | a :: as, b :: bs =>
    if a > b then 1 else if a < b then -1 else compareSegs as bs

/-- Modelled from the spec: the external `node-version-compare` module
(`var compare = require('node-version-compare')`), which is not part of this
repository.  The spec states that version comparison is numeric per
dot-segment ("8.10" is treated as greater than "8.2", not lexically), with
results -1/0/1. -/
def compare (v1 v2 : String) : Int :=
  compareSegs (parseSegs v1) (parseSegs v2)

/-- `var IOS_DEPLOYMENT_TARGET = '8.0';` (line 12 of the source). -/
def IOS_DEPLOYMENT_TARGET : String := "8.0"

/-- `var COMMENT_KEY = /_comment$/;` — `COMMENT_KEY_test k` models
`COMMENT_KEY.test(k)`. -/
def COMMENT_KEY_test (k : String) : Bool :=
  endsWithStr k "_comment"

/-- A build-configuration record of the `XCBuildConfiguration` section:
`configurations[config].buildSettings` is a flat string-to-string map,
modelled as an association list with unique keys in object order. -/
structure BuildConfig where
  buildSettings : List (String × String)
deriving DecidableEq

/-- JavaScript property read `bs[k]`: `none` models `undefined`. -/
def getSetting : List (String × String) → String → Option String
  | [], _ => none
  | p :: ps, k => if p.1 = k then some p.2 else getSetting ps k

/-- JavaScript property write `bs[k] = v`: replaces the value in place when
the key is present (object order preserved), appends otherwise. -/
def setSetting : List (String × String) → String → String → List (String × String)
  | [], k, v => [(k, v)]
  | p :: ps, k, v => if p.1 = k then (k, v) :: ps else p :: setSetting ps k v

/-- The per-record body of the `for (var config in configurations)` loop of
`activateAssociativeDomains`, generalised over the threshold constant.
`if (buildSettings['IPHONEOS_DEPLOYMENT_TARGET'])` is JavaScript truthiness:
an absent key (`undefined`) and the empty string both take the else branch.
Returns the new settings map and whether `deploymentTargetIsUpdated` was set
by this record. -/
def patchSettingsWith (threshold : String) (bs : List (String × String)) :
    List (String × String) × Bool :=
  match getSetting bs "IPHONEOS_DEPLOYMENT_TARGET" with
  | some s =>
    if s = "" then
      (setSetting bs "IPHONEOS_DEPLOYMENT_TARGET" threshold, true)
    else if compare s threshold = -1 then
      (setSetting bs "IPHONEOS_DEPLOYMENT_TARGET" threshold, true)
    else
      (bs, false)
  | none => (setSetting bs "IPHONEOS_DEPLOYMENT_TARGET" threshold, true)

/-- The loop body with the source's threshold `IOS_DEPLOYMENT_TARGET`. -/
def patchSettings (bs : List (String × String)) : List (String × String) × Bool :=
  patchSettingsWith IOS_DEPLOYMENT_TARGET bs

/-- `nonComments` from the source: iterates the object's keys and keeps the
entries whose key does not pass the `COMMENT_KEY` test. -/
def nonComments (obj : List (String × BuildConfig)) : List (String × BuildConfig) :=
  obj.filter (fun e => !COMMENT_KEY_test e.1)

/-- Effect of one loop iteration on one entry of the original section.  The
loop of `activateAssociativeDomains` runs over `nonComments(section)`, whose
values alias the records of the original section, so a comment-keyed entry is
never visited (hence unchanged) and every other entry's `buildSettings`
object is mutated through the alias. -/
def patchEntry (e : String × BuildConfig) : (String × BuildConfig) × Bool :=
  if COMMENT_KEY_test e.1 then (e, false)
  else
    let r := patchSettings e.2.buildSettings
    ((e.1, ⟨r.1⟩), r.2)

/-- The whole configuration-section patch: the final state of the section
after the loop, and the final value of the `deploymentTargetIsUpdated`
flag (initially `undefined`, i.e. false; set when any record updates). -/
def patchSection (sec : List (String × BuildConfig)) :
    List (String × BuildConfig) × Bool :=
  (sec.map (fun e => (patchEntry e).1),
   sec.any (fun e => (patchEntry e).2))

/-- Observable result of `activateAssociativeDomains` on a parsed section:
the section content serialized back by `pbxProject.writeSync()`, whether
`fs.writeFileSync` ran, and whether the informational `console.log` line
was emitted. -/
structure PatchResult where
  written : List (String × BuildConfig)
  fileWritten : Bool
  logged : Bool
deriving DecidableEq

/-- `activateAssociativeDomains`, lines 61-95 of the source: patches every
non-comment configuration record and then unconditionally writes the project
file back (`fs.writeFileSync(projectPath, pbxProject.writeSync())` is outside
any conditional); the log line is emitted only when the flag was set. -/
def activateAssociativeDomains (sec : List (String × BuildConfig)) : PatchResult :=
  let r := patchSection sec
  ⟨r.1, true, r.2⟩

/-- The file-system facts the hook consults, as pure functions.
`readdirSync p = none` models `fs.readdirSync` throwing (no listable
directory at `p`); `isDirectory` models `fs.statSync(p).isDirectory()` with
the `directoryExists` helper's catch-all returning false on a stat error;
`descriptorAt p` is the parsed `XCBuildConfiguration` section of
`p/project.pbxproj`. -/
structure FileSystem where
  existsSync : String → Bool
  isDirectory : String → Bool
  readdirSync : String → Option (List String)
  descriptorAt : String → List (String × BuildConfig)

/-- `path.join` as used by the hook (no normalisation is relevant here). -/
def pathJoin (a b : String) : String := a ++ "/" ++ b

/-- `var iosFolder = fs.existsSync(iosPlatform) ? iosPlatform :
context.opts.projectRoot;` — the directory the hook searches. -/
def iosFolderOf (fs : FileSystem) (projectRoot : String) : String :=
  if fs.existsSync (pathJoin projectRoot "platforms/ios/") then
    pathJoin projectRoot "platforms/ios/"
  else projectRoot

/-- `data.forEach(...)` with assignment on match: the last matching entry of
the listing wins. -/
def findLast (l : List String) (p : String → Bool) : Option String :=
  l.foldl (fun acc x => if p x then some x else acc) none

/-- `path.basename(folder, ext)`: strips `ext` only when it is a proper
suffix of the name (Node keeps the name whole when it equals the extension);
`folder` comes from a directory listing, so it has no separator to strip. -/
def basenameStrip (s ext : String) : String :=
  if endsWithStr s ext && decide (ext.length < s.length) then
    s.dropRight ext.length
  else s

/-- What one run of `enableAssociativeDomainsCapability` does:
`errorThrown` is the explicit `throw new Error(...)` for a missing
`.xcodeproj`; `readdirError` is `fs.readdirSync` throwing; `skipped` is the
final `if (directoryExists(iosFolder))` guard failing (no patch, no write);
`patched` carries the chosen bundle path, the derived project name and the
patcher's result. -/
inductive HookOutcome where
  | errorThrown (message : String)
  | readdirError
  | skipped
  | patched (projFolder projName : String) (result : PatchResult)
deriving DecidableEq

/-- `enableAssociativeDomainsCapability`, lines 27-50 of the source:
prefers `platforms/ios/` under the project root when it exists, else the
root itself; lists that folder; takes the last `.xcodeproj` entry; throws
when there is none; then patches when the folder is a directory. -/
def enableAssociativeDomainsCapability (fs : FileSystem) (projectRoot : String) :
    HookOutcome :=
  let iosFolder := iosFolderOf fs projectRoot
  match fs.readdirSync iosFolder with
  | none => .readdirError
  | some data =>
    match findLast data (fun f => endsWithStr f ".xcodeproj") with
    | none => .errorThrown ("Could not find an .xcodeproj folder in: " ++ iosFolder)
    | some folder =>
      if fs.isDirectory iosFolder then
        .patched (pathJoin iosFolder folder)
          (basenameStrip folder ".xcodeproj")
          (activateAssociativeDomains (fs.descriptorAt (pathJoin iosFolder folder)))
      else .skipped

/-- Lexicographic (character-code) order on strings' character lists, defined
only to contrast with the numeric per-segment version comparison: a lexical
comparison would order "8.10" before "8.2". -/
def charLexLt : List Char → List Char → Bool
  | [], [] => false
  | [], _ :: _ => true
  | _ :: _, [] => false
  | a :: as, b :: bs =>
    if a.toNat < b.toNat then true
    else if b.toNat < a.toNat then false
    else charLexLt as bs

/-- Concrete one-record section (deployment target "7.1", below threshold). -/
def secLow : List (String × BuildConfig) :=
  [("D", BuildConfig.mk [("IPHONEOS_DEPLOYMENT_TARGET", "7.1")])]

/-- Concrete one-record section (deployment target "9.0", above threshold). -/
def secHighWithComment : List (String × BuildConfig) :=
  [("K", BuildConfig.mk [("IPHONEOS_DEPLOYMENT_TARGET", "9.0")]),
   ("K_comment", BuildConfig.mk [])]

/-- Concrete section with a comment pseudo-entry first. -/
def secWithComment : List (String × BuildConfig) :=
  [("A_comment", BuildConfig.mk [("k", "v")]),
   ("A", BuildConfig.mk [])]

/-- Concrete file system: searched folder "root" holds no `.xcodeproj`. -/
def fsNoBundle : FileSystem where
  existsSync := fun _ => false
  isDirectory := fun _ => true
  readdirSync := fun p => if p == "root" then some ["readme.txt"] else none
  descriptorAt := fun _ => []

/-- Concrete file system: `platforms/ios/` does not exist under "proj" and
the root "proj" itself lists no entries at all. -/
def fsNoPlatform : FileSystem where
  existsSync := fun _ => false
  isDirectory := fun _ => false
  readdirSync := fun p => if p == "proj" then some [] else none
  descriptorAt := fun _ => []

/-- Concrete file system: "proj" holds two `.xcodeproj` bundles and one
other entry. -/
def fsTwoBundles : FileSystem where
  existsSync := fun _ => false
  isDirectory := fun p => p == "proj"
  readdirSync := fun p =>
    if p == "proj" then some ["A.xcodeproj", "MyApp.xcodeproj", "notes"] else none
  descriptorAt := fun _ => [("K", BuildConfig.mk [])]

theorem getSetting_setSetting (bs : List (String × String)) (k v : String) :
    getSetting (setSetting bs k v) k = some v := by
  induction bs with
  | nil => simp [setSetting, getSetting]
  | cons p ps ih =>
    by_cases h : p.1 = k
    · simp [setSetting, getSetting, h]
    · simp [setSetting, getSetting, h, ih]

theorem compareSegs_refl (a : List Nat) : compareSegs a a = 0 := by
  induction a with
  | nil => rfl
  | cons x xs ih => simp [compareSegs, ih]

theorem compareSegs_flip (a b : List Nat) (h : compareSegs a b = -1) :
    compareSegs b a = 1 := by
  induction a generalizing b with
  | nil =>
    cases b with
    | nil => simp [compareSegs] at h
    | cons y ys => simp [compareSegs]
  | cons x xs ih =>
    cases b with
    | nil => simp [compareSegs] at h
    | cons y ys =>
      by_cases hgt : x > y
      · simp [compareSegs, hgt] at h
      · by_cases hlt : x < y
        · simp [compareSegs, hgt, hlt] at h ⊢
        · have hxy : x = y := by omega
          subst hxy
          simp [compareSegs, hgt, hlt] at h ⊢
          exact ih ys h

theorem compare_self (v : String) : compare v v = 0 := compareSegs_refl _

theorem compare_flip (a b : String) (h : compare a b = -1) : compare b a = 1 :=
  compareSegs_flip _ _ h

theorem patchSettings_absent (bs : List (String × String))
    (h : getSetting bs "IPHONEOS_DEPLOYMENT_TARGET" = none) :
    patchSettings bs =
      (setSetting bs "IPHONEOS_DEPLOYMENT_TARGET" IOS_DEPLOYMENT_TARGET, true) := by
  simp [patchSettings, patchSettingsWith, h]

theorem patchSettings_low (bs : List (String × String)) (s : String)
    (h : getSetting bs "IPHONEOS_DEPLOYMENT_TARGET" = some s)
    (hc : compare s IOS_DEPLOYMENT_TARGET = -1) :
    patchSettings bs =
      (setSetting bs "IPHONEOS_DEPLOYMENT_TARGET" IOS_DEPLOYMENT_TARGET, true) := by
  by_cases he : s = ""
  · simp [patchSettings, patchSettingsWith, h, he]
  · simp [patchSettings, patchSettingsWith, h, he, hc]

theorem patchSettings_high (bs : List (String × String)) (s : String)
    (h : getSetting bs "IPHONEOS_DEPLOYMENT_TARGET" = some s)
    (hc : compare s IOS_DEPLOYMENT_TARGET ≠ -1) :
    patchSettings bs = (bs, false) := by
  have he : s ≠ "" := by
    intro he
    subst he
    exact hc (by decide)
  simp [patchSettings, patchSettingsWith, h, he, hc]

theorem patchSettings_idem (bs : List (String × String)) :
    patchSettings (patchSettings bs).1 = ((patchSettings bs).1, false) := by
  have h80 : compare "8.0" IOS_DEPLOYMENT_TARGET ≠ -1 := by decide
  match hg : getSetting bs "IPHONEOS_DEPLOYMENT_TARGET" with
  | none =>
    rw [patchSettings_absent bs hg]
    exact patchSettings_high _ "8.0" (getSetting_setSetting bs _ _) h80
  | some s =>
    by_cases hc : compare s IOS_DEPLOYMENT_TARGET = -1
    · rw [patchSettings_low bs s hg hc]
      exact patchSettings_high _ "8.0" (getSetting_setSetting bs _ _) h80
    · rw [patchSettings_high bs s hg hc]
      exact patchSettings_high bs s hg hc

theorem patchEntry_comment (e : String × BuildConfig)
    (h : COMMENT_KEY_test e.1 = true) : patchEntry e = (e, false) := by
  simp [patchEntry, h]

theorem patchEntry_fst_key (e : String × BuildConfig) :
    (patchEntry e).1.1 = e.1 := by
  by_cases h : COMMENT_KEY_test e.1
  · simp [patchEntry, h]
  · simp [patchEntry, h]

theorem patchEntry_idem (e : String × BuildConfig) :
    patchEntry (patchEntry e).1 = ((patchEntry e).1, false) := by
  by_cases h : COMMENT_KEY_test e.1
  · rw [patchEntry_comment e h, patchEntry_comment e h]
  · have h1 : (patchEntry e).1 = (e.1, ⟨(patchSettings e.2.buildSettings).1⟩) := by
      simp [patchEntry, h]
    rw [h1]
    simp [patchEntry, h, patchSettings_idem]

theorem patchSection_getElem (sec : List (String × BuildConfig)) (i : Nat) :
    (patchSection sec).1[i]? = (sec[i]?).map (fun e => (patchEntry e).1) := by
  simp [patchSection, List.getElem?_map]

theorem patchSection_eq_self (sec : List (String × BuildConfig))
    (h : ∀ e ∈ sec, patchEntry e = (e, false)) :
    patchSection sec = (sec, false) := by
  induction sec with
  | nil => rfl
  | cons e rest ih =>
    have he := h e (by simp)
    have hr := ih (fun x hx => h x (by simp [hx]))
    have h1 : rest.map (fun x => (patchEntry x).1) = rest :=
      congrArg Prod.fst hr
    have h2 : (rest.any fun x => (patchEntry x).2) = false :=
      congrArg Prod.snd hr
    simp [patchSection, he, h1, h2]

theorem findLast_of_no_match (l : List String) (p : String → Bool) (acc : Option String)
    (h : ∀ f ∈ l, p f = false) :
    l.foldl (fun acc x => if p x then some x else acc) acc = acc := by
  induction l generalizing acc with
  | nil => rfl
  | cons x xs ih =>
    have hx := h x (by simp)
    simp [List.foldl, hx, ih _ (fun f hf => h f (by simp [hf]))]

theorem findLast_none (l : List String) (p : String → Bool)
    (h : ∀ f ∈ l, p f = false) : findLast l p = none :=
  findLast_of_no_match l p none h

theorem findLast_last (l1 l2 : List String) (f : String) (p : String → Bool)
    (hf : p f = true) (h2 : ∀ g ∈ l2, p g = false) :
    findLast (l1 ++ f :: l2) p = some f := by
  unfold findLast
  rw [List.foldl_append]
  simp only [List.foldl, hf, if_pos]
  exact findLast_of_no_match l2 p (some f) h2

theorem hook_throws_of_no_match (fs : FileSystem) (root : String)
    (data : List String)
    (hlist : fs.readdirSync (iosFolderOf fs root) = some data)
    (hnone : ∀ f ∈ data, endsWithStr f ".xcodeproj" = false) :
    enableAssociativeDomainsCapability fs root =
      .errorThrown ("Could not find an .xcodeproj folder in: " ++ iosFolderOf fs root) := by
  simp only [enableAssociativeDomainsCapability, hlist,
    findLast_none data _ hnone]

/-- C3: the version comparison deciding whether to raise the setting is
numeric per dot-segment, not lexical: "8.10" compares greater than "8.2"
(so against threshold "8.2" a record holding "8.10" is left untouched and
not marked updated), while a lexical character-code comparison would order
"8.10" strictly before "8.2". -/
theorem C3_numeric_not_lexical :
    compare "8.10" "8.2" = 1 ∧
    patchSettingsWith "8.2" [("IPHONEOS_DEPLOYMENT_TARGET", "8.10")] =
      ([("IPHONEOS_DEPLOYMENT_TARGET", "8.10")], false) ∧
    charLexLt "8.10".data "8.2".data = true := by
  decide

/-- C8: when every non-comment record's deployment target is present and
already at least the threshold, the patch changes no values and sets no
update flag (so no log line), yet `activateAssociativeDomains` still writes
the file back unconditionally. -/
theorem C8_noop_still_writes (sec : List (String × BuildConfig))
    (h : ∀ e ∈ sec, COMMENT_KEY_test e.1 = false →
         ∃ s, getSetting e.2.buildSettings "IPHONEOS_DEPLOYMENT_TARGET" = some s ∧
              compare s IOS_DEPLOYMENT_TARGET ≠ -1) :
    activateAssociativeDomains sec = ⟨sec, true, false⟩ := by
  have hall : ∀ e ∈ sec, patchEntry e = (e, false) := by
    intro e he
    by_cases hc : COMMENT_KEY_test e.1
    · exact patchEntry_comment e hc
    · obtain ⟨s, hs, hcmp⟩ := h e he (by simpa using hc)
      have hps := patchSettings_high e.2.buildSettings s hs hcmp
      simp [patchEntry, hc, hps]
  simp [activateAssociativeDomains, patchSection_eq_self sec hall]

/-- C8 witness: a concrete section whose only real record holds "9.0". -/
theorem C8_noop_still_writes_witness :
    activateAssociativeDomains secHighWithComment =
      ⟨secHighWithComment, true, false⟩ := by
  refine C8_noop_still_writes secHighWithComment ?_
  intro e he hnc
  simp [secHighWithComment] at he
  rcases he with he | he
  · subst he
    exact ⟨"9.0", by decide, by decide⟩
  · subst he
    exact absurd hnc (by decide)

/-- C9: the patch is idempotent: running `activateAssociativeDomains` on the
section it has just written yields the same section, and the second run marks
no record as updated (no log line), while still writing the file. -/
theorem C9_patch_idempotent (sec : List (String × BuildConfig)) :
    activateAssociativeDomains (activateAssociativeDomains sec).written =
      ⟨(activateAssociativeDomains sec).written, true, false⟩ := by
  have h : ∀ e ∈ (patchSection sec).1, patchEntry e = (e, false) := by
    intro e he
    rw [patchSection] at he
    simp only [List.mem_map] at he
    obtain ⟨x, _, hxe⟩ := he
    rw [← hxe]
    exact patchEntry_idem x
  have h2 := patchSection_eq_self (patchSection sec).1 h
  simp [activateAssociativeDomains, h2]

/-- C10: the threshold constant is the string "8.0" (not the "9.0" announced
by the file's header comment), and every record the patch updates is set to
exactly "8.0". -/
theorem C10_threshold_is_8_0 :
    IOS_DEPLOYMENT_TARGET = "8.0" ∧ IOS_DEPLOYMENT_TARGET ≠ "9.0" ∧
    ∀ bs : List (String × String), (patchSettings bs).2 = true →
      getSetting (patchSettings bs).1 "IPHONEOS_DEPLOYMENT_TARGET" = some "8.0" := by
  refine ⟨rfl, by decide, ?_⟩
  intro bs h
  match hg : getSetting bs "IPHONEOS_DEPLOYMENT_TARGET" with
  | none =>
    rw [patchSettings_absent bs hg]
    exact getSetting_setSetting bs _ _
  | some s =>
    by_cases hc : compare s IOS_DEPLOYMENT_TARGET = -1
    · rw [patchSettings_low bs s hg hc]
      exact getSetting_setSetting bs _ _
    · rw [patchSettings_high bs s hg hc] at h
      simp at h

/-- C10 witness: patching an empty settings map marks an update and installs
exactly "8.0". -/
theorem C10_threshold_is_8_0_witness :
    getSetting (patchSettings []).1 "IPHONEOS_DEPLOYMENT_TARGET" = some "8.0" :=
  C10_threshold_is_8_0.2.2 [] (by decide)

/-- C1: after one run of the section patch, every non-comment record keeps
its key, has the deployment-target setting present, has it equal to the
threshold when it was previously absent or strictly below the threshold
under the version ordering (never a value strictly between), and keeps its
previous settings untouched otherwise. -/
theorem C1_patch_sets_threshold (sec : List (String × BuildConfig)) (i : Nat)
    (e : String × BuildConfig) (he : sec[i]? = some e)
    (hnc : COMMENT_KEY_test e.1 = false) :
    ∃ e', (patchSection sec).1[i]? = some e' ∧ e'.1 = e.1 ∧
      (getSetting e'.2.buildSettings "IPHONEOS_DEPLOYMENT_TARGET").isSome = true ∧
      ((getSetting e.2.buildSettings "IPHONEOS_DEPLOYMENT_TARGET" = none ∨
        (∃ s, getSetting e.2.buildSettings "IPHONEOS_DEPLOYMENT_TARGET" = some s ∧
              compare s IOS_DEPLOYMENT_TARGET = -1)) →
        getSetting e'.2.buildSettings "IPHONEOS_DEPLOYMENT_TARGET" =
          some IOS_DEPLOYMENT_TARGET) ∧
      (∀ s, getSetting e.2.buildSettings "IPHONEOS_DEPLOYMENT_TARGET" = some s →
            compare s IOS_DEPLOYMENT_TARGET ≠ -1 →
            e'.2.buildSettings = e.2.buildSettings) := by
  have hE : (patchEntry e).1 = (e.1, ⟨(patchSettings e.2.buildSettings).1⟩) := by
    simp [patchEntry, hnc]
  refine ⟨(patchEntry e).1, by rw [patchSection_getElem, he]; rfl,
    patchEntry_fst_key e, ?_, ?_, ?_⟩
  · rw [hE]
    match hg : getSetting e.2.buildSettings "IPHONEOS_DEPLOYMENT_TARGET" with
    | none =>
      rw [patchSettings_absent _ hg]
      simp [getSetting_setSetting]
    | some s =>
      by_cases hc : compare s IOS_DEPLOYMENT_TARGET = -1
      · rw [patchSettings_low _ s hg hc]
        simp [getSetting_setSetting]
      · rw [patchSettings_high _ s hg hc]
        simp [hg]
  · intro hcond
    rw [hE]
    rcases hcond with hg | ⟨s, hg, hc⟩
    · rw [patchSettings_absent _ hg]
      exact getSetting_setSetting _ _ _
    · rw [patchSettings_low _ s hg hc]
      exact getSetting_setSetting _ _ _
  · intro s hg hc
    rw [hE]
    rw [patchSettings_high _ s hg hc]

/-- C1 witness: in the concrete section `secLow` the single record "D" holds
"7.1", which is below the threshold, so it is set to "8.0". -/
theorem C1_patch_sets_threshold_witness :
    ∃ e', (patchSection secLow).1[0]? = some e' ∧
      e'.1 = ("D", BuildConfig.mk [("IPHONEOS_DEPLOYMENT_TARGET", "7.1")]).1 ∧
      (getSetting e'.2.buildSettings "IPHONEOS_DEPLOYMENT_TARGET").isSome = true ∧
      ((getSetting (BuildConfig.mk
          [("IPHONEOS_DEPLOYMENT_TARGET", "7.1")]).buildSettings
          "IPHONEOS_DEPLOYMENT_TARGET" = none ∨
        (∃ s, getSetting (BuildConfig.mk
            [("IPHONEOS_DEPLOYMENT_TARGET", "7.1")]).buildSettings
            "IPHONEOS_DEPLOYMENT_TARGET" = some s ∧
              compare s IOS_DEPLOYMENT_TARGET = -1)) →
        getSetting e'.2.buildSettings "IPHONEOS_DEPLOYMENT_TARGET" =
          some IOS_DEPLOYMENT_TARGET) ∧
      (∀ s, getSetting (BuildConfig.mk
          [("IPHONEOS_DEPLOYMENT_TARGET", "7.1")]).buildSettings
          "IPHONEOS_DEPLOYMENT_TARGET" = some s →
            compare s IOS_DEPLOYMENT_TARGET ≠ -1 →
            e'.2.buildSettings = (BuildConfig.mk
              [("IPHONEOS_DEPLOYMENT_TARGET", "7.1")]).buildSettings) :=
  C1_patch_sets_threshold secLow 0
    ("D", BuildConfig.mk [("IPHONEOS_DEPLOYMENT_TARGET", "7.1")])
    (by decide) (by decide)

/-- C2: the patch never lowers a deployment target: for every non-comment
record, the value after the run is either exactly the threshold or the
record's unchanged previous value, and whenever both an old and a new value
exist the new one is not strictly below the old under the version
ordering. -/
theorem C2_never_lowers (sec : List (String × BuildConfig)) (i : Nat)
    (e : String × BuildConfig) (he : sec[i]? = some e)
    (hnc : COMMENT_KEY_test e.1 = false) :
    ∃ e', (patchSection sec).1[i]? = some e' ∧
      (getSetting e'.2.buildSettings "IPHONEOS_DEPLOYMENT_TARGET" =
         some IOS_DEPLOYMENT_TARGET ∨
       getSetting e'.2.buildSettings "IPHONEOS_DEPLOYMENT_TARGET" =
         getSetting e.2.buildSettings "IPHONEOS_DEPLOYMENT_TARGET") ∧
      (∀ s, getSetting e.2.buildSettings "IPHONEOS_DEPLOYMENT_TARGET" = some s →
            getSetting e'.2.buildSettings "IPHONEOS_DEPLOYMENT_TARGET" = some s →
            compare s IOS_DEPLOYMENT_TARGET ≠ -1) ∧
      (∀ s t, getSetting e.2.buildSettings "IPHONEOS_DEPLOYMENT_TARGET" = some s →
              getSetting e'.2.buildSettings "IPHONEOS_DEPLOYMENT_TARGET" = some t →
              compare t s ≠ -1) := by
  have hE : (patchEntry e).1 = (e.1, ⟨(patchSettings e.2.buildSettings).1⟩) := by
    simp [patchEntry, hnc]
  refine ⟨(patchEntry e).1, by rw [patchSection_getElem, he]; rfl, ?_, ?_, ?_⟩
  · rw [hE]
    match hg : getSetting e.2.buildSettings "IPHONEOS_DEPLOYMENT_TARGET" with
    | none =>
      rw [patchSettings_absent _ hg]
      exact Or.inl (getSetting_setSetting _ _ _)
    | some s =>
      by_cases hc : compare s IOS_DEPLOYMENT_TARGET = -1
      · rw [patchSettings_low _ s hg hc]
        exact Or.inl (getSetting_setSetting _ _ _)
      · rw [patchSettings_high _ s hg hc]
        exact Or.inr hg
  · intro s hg hs
    by_cases hc : compare s IOS_DEPLOYMENT_TARGET = -1
    · rw [hE, patchSettings_low _ s hg hc, getSetting_setSetting] at hs
      have hsi : IOS_DEPLOYMENT_TARGET = s := Option.some_inj.mp hs
      rw [← hsi] at hc
      exact absurd hc (by decide)
    · exact hc
  · intro s t hg ht
    rw [hE] at ht
    by_cases hc : compare s IOS_DEPLOYMENT_TARGET = -1
    · rw [patchSettings_low _ s hg hc] at ht
      rw [getSetting_setSetting] at ht
      have hts : t = IOS_DEPLOYMENT_TARGET := by
        exact (Option.some_inj.mp ht).symm
      subst hts
      have h1 := compare_flip s IOS_DEPLOYMENT_TARGET hc
      rw [h1]
      decide
    · rw [patchSettings_high _ s hg hc] at ht
      rw [hg] at ht
      have hts : t = s := (Option.some_inj.mp ht).symm
      subst hts
      rw [compare_self]
      decide

/-- C2 witness: the concrete record "D" held "7.1"; after the patch it holds
"8.0", which is not below "7.1". -/
theorem C2_never_lowers_witness :
    ∃ e', (patchSection secLow).1[0]? = some e' ∧
      (getSetting e'.2.buildSettings "IPHONEOS_DEPLOYMENT_TARGET" =
         some IOS_DEPLOYMENT_TARGET ∨
       getSetting e'.2.buildSettings "IPHONEOS_DEPLOYMENT_TARGET" =
         getSetting (BuildConfig.mk
           [("IPHONEOS_DEPLOYMENT_TARGET", "7.1")]).buildSettings
           "IPHONEOS_DEPLOYMENT_TARGET") ∧
      (∀ s, getSetting (BuildConfig.mk
           [("IPHONEOS_DEPLOYMENT_TARGET", "7.1")]).buildSettings
           "IPHONEOS_DEPLOYMENT_TARGET" = some s →
            getSetting e'.2.buildSettings "IPHONEOS_DEPLOYMENT_TARGET" = some s →
            compare s IOS_DEPLOYMENT_TARGET ≠ -1) ∧
      (∀ s t, getSetting (BuildConfig.mk
           [("IPHONEOS_DEPLOYMENT_TARGET", "7.1")]).buildSettings
           "IPHONEOS_DEPLOYMENT_TARGET" = some s →
              getSetting e'.2.buildSettings "IPHONEOS_DEPLOYMENT_TARGET" = some t →
              compare t s ≠ -1) :=
  C2_never_lowers secLow 0
    ("D", BuildConfig.mk [("IPHONEOS_DEPLOYMENT_TARGET", "7.1")])
    (by decide) (by decide)

/-- C4: entries whose key ends in the exact suffix `_comment` are excluded
by `nonComments` before iteration (so they are never handed to the update
logic) and survive the section patch unchanged at their position, while
every entry whose key lacks the suffix is retained by `nonComments`. -/
theorem C4_comments_excluded (sec : List (String × BuildConfig)) :
    (∀ e ∈ nonComments sec, COMMENT_KEY_test e.1 = false) ∧
    (∀ e ∈ sec, COMMENT_KEY_test e.1 = false → e ∈ nonComments sec) ∧
    (∀ (i : Nat) (e : String × BuildConfig),
       sec[i]? = some e → COMMENT_KEY_test e.1 = true →
       (patchSection sec).1[i]? = some e) := by
  refine ⟨?_, ?_, ?_⟩
  · intro e he
    have h := List.mem_filter.mp he
    simpa using h.2
  · intro e he h
    exact List.mem_filter.mpr ⟨he, by simp [h]⟩
  · intro i e he h
    rw [patchSection_getElem, he]
    simp [patchEntry_comment e h]

/-- C4 witness: in `secWithComment` the entry keyed "A_comment" is absent
from `nonComments`, sits unchanged at index 0 after the patch, and the
entry keyed "A" is retained. -/
theorem C4_comments_excluded_witness :
    (("A", BuildConfig.mk []) ∈ nonComments secWithComment) ∧
    (patchSection secWithComment).1[0]? =
      some ("A_comment", BuildConfig.mk [("k", "v")]) :=
  ⟨(C4_comments_excluded secWithComment).2.1 ("A", BuildConfig.mk [])
      (by decide) (by decide),
   (C4_comments_excluded secWithComment).2.2 0
      ("A_comment", BuildConfig.mk [("k", "v")]) (by decide) (by decide)⟩

/-- C5: when the searched directory lists successfully but holds no entry
ending in ".xcodeproj", the hook throws the error whose message names the
searched directory, and no descriptor is read, mutated or written (the
outcome is `errorThrown`, not `patched`). -/
theorem C5_no_bundle_error (fs : FileSystem) (root : String) (data : List String)
    (hlist : fs.readdirSync (iosFolderOf fs root) = some data)
    (hnone : ∀ f ∈ data, endsWithStr f ".xcodeproj" = false) :
    enableAssociativeDomainsCapability fs root =
      .errorThrown ("Could not find an .xcodeproj folder in: " ++ iosFolderOf fs root) :=
  hook_throws_of_no_match fs root data hlist hnone

/-- C5 witness: the concrete `fsNoBundle` lists only "readme.txt" under
"root". -/
theorem C5_no_bundle_error_witness :
    enableAssociativeDomainsCapability fsNoBundle "root" =
      .errorThrown ("Could not find an .xcodeproj folder in: " ++
        iosFolderOf fsNoBundle "root") :=
  C5_no_bundle_error fsNoBundle "root" ["readme.txt"] (by decide) (by decide)

/-- C6 counterexample: in `fsNoPlatform` the platform subfolder
"proj/platforms/ios/" does not exist and is not a directory, yet the hook
does not return early without error: it throws the not-found error (after
falling back to listing the project root), refuting the claimed silent
no-op. -/
theorem C6_counterexample :
    fsNoPlatform.existsSync (pathJoin "proj" "platforms/ios/") = false ∧
    fsNoPlatform.isDirectory (pathJoin "proj" "platforms/ios/") = false ∧
    enableAssociativeDomainsCapability fsNoPlatform "proj" =
      .errorThrown "Could not find an .xcodeproj folder in: proj" := by
  decide

/-- C6 (amended): when the platform subfolder does not exist, the hook does
not return early: it falls back to searching the project root itself, and
when the root holds no ".xcodeproj" entry it throws the not-found error
naming the project root. -/
theorem C6_amended_fallback_error (fs : FileSystem) (root : String)
    (data : List String)
    (hnp : fs.existsSync (pathJoin root "platforms/ios/") = false)
    (hlist : fs.readdirSync root = some data)
    (hnone : ∀ f ∈ data, endsWithStr f ".xcodeproj" = false) :
    enableAssociativeDomainsCapability fs root =
      .errorThrown ("Could not find an .xcodeproj folder in: " ++ root) := by
  have hfold : iosFolderOf fs root = root := by
    simp [iosFolderOf, hnp]
  have h := hook_throws_of_no_match fs root data (by rw [hfold]; exact hlist) hnone
  rwa [hfold] at h

/-- C6 amended witness: the concrete `fsNoPlatform` with empty root
listing. -/
theorem C6_amended_fallback_error_witness :
    enableAssociativeDomainsCapability fsNoPlatform "proj" =
      .errorThrown ("Could not find an .xcodeproj folder in: " ++ "proj") :=
  C6_amended_fallback_error fsNoPlatform "proj" [] (by decide) (by decide)
    (by decide)

/-- C7: when the searched directory lists several ".xcodeproj" entries, the
last matching entry in listing order wins: the hook patches the bundle at
that entry's path and derives the project name by stripping the suffix from
that entry's name. -/
theorem C7_last_match_wins (fs : FileSystem) (root : String)
    (l1 l2 : List String) (f : String)
    (hlist : fs.readdirSync (iosFolderOf fs root) = some (l1 ++ f :: l2))
    (hf : endsWithStr f ".xcodeproj" = true)
    (hl2 : ∀ g ∈ l2, endsWithStr g ".xcodeproj" = false)
    (hdir : fs.isDirectory (iosFolderOf fs root) = true) :
    enableAssociativeDomainsCapability fs root =
      .patched (pathJoin (iosFolderOf fs root) f)
        (basenameStrip f ".xcodeproj")
        (activateAssociativeDomains
          (fs.descriptorAt (pathJoin (iosFolderOf fs root) f))) := by
  simp only [enableAssociativeDomainsCapability, hlist,
    findLast_last l1 l2 f _ hf hl2, hdir, if_pos]

/-- C7 witness: under `fsTwoBundles` the listing is
["A.xcodeproj", "MyApp.xcodeproj", "notes"]; the later match
"MyApp.xcodeproj" wins over "A.xcodeproj" and yields project name
"MyApp". -/
theorem C7_last_match_wins_witness :
    enableAssociativeDomainsCapability fsTwoBundles "proj" =
      .patched "proj/MyApp.xcodeproj" "MyApp"
        ⟨[("K", BuildConfig.mk [("IPHONEOS_DEPLOYMENT_TARGET", "8.0")])],
         true, true⟩ := by
  have h := C7_last_match_wins fsTwoBundles "proj" ["A.xcodeproj"] ["notes"]
    "MyApp.xcodeproj" (by decide) (by decide) (by decide) (by decide)
  exact h.trans (by decide)

end XcodePreferences
